import Mathlib

/-!
Shallow embedding of `simplebot.py`: the RSI calculator (`calculate_rsi`),
the retrying fetcher (`get_data_with_retry`), and one iteration of each
trading-bot polling loop (`simple_trading_bot`, `realtime_trading_bot`).

Floating-point values are modelled exactly: a value is `nan`, `inf`, `ninf`
(negative infinity) or an exact rational `num q`.  All arithmetic the script
performs on these values (addition, subtraction, division, comparisons)
follows IEEE semantics on these symbolic values; signed zero is collapsed to
`num 0`, which is observationally irrelevant for every operation the script
performs.
-/

/-- IEEE-style scalar as produced by the pandas pipeline: not-a-number,
positive infinity, negative infinity, or an exact numeric value. -/
inductive RVal where
  | nan : RVal
  | inf : RVal
  | ninf : RVal
  | num : ℚ → RVal
deriving DecidableEq, Repr

namespace RVal

/-- IEEE addition on the modelled scalars. -/
def add : RVal → RVal → RVal
  | nan, _ => nan
  | _, nan => nan
  | inf, ninf => nan
  | ninf, inf => nan
  | inf, _ => inf
  | _, inf => inf
  | ninf, _ => ninf
  | _, ninf => ninf
  | num a, num b => num (a + b)

/-- IEEE negation. -/
def neg : RVal → RVal
  | nan => nan
  | inf => ninf
  | ninf => inf
  | num a => num (-a)

/-- IEEE subtraction. -/
def sub (x y : RVal) : RVal := add x (neg y)

/-- IEEE division (signed zeros collapsed to `num 0`). -/
def div : RVal → RVal → RVal
  | nan, _ => nan
  | _, nan => nan
  | inf, inf => nan
  | inf, ninf => nan
  | ninf, inf => nan
  | ninf, ninf => nan
  | inf, num b => if b < 0 then ninf else inf
  | ninf, num b => if b < 0 then inf else ninf
  | num _, inf => num 0
  | num _, ninf => num 0
  | num a, num b =>
      if b = 0 then (if 0 < a then inf else if a < 0 then ninf else nan)
      else num (a / b)

/-- IEEE strict `<` comparison: any comparison with `nan` is false. -/
def lt : RVal → RVal → Bool
  | nan, _ => false
  | _, nan => false
  | inf, _ => false
  | ninf, ninf => false
  | ninf, _ => true
  | num _, inf => true
  | num _, ninf => false
  | num a, num b => decide (a < b)

/-- IEEE strict `>` comparison. -/
def gt (x y : RVal) : Bool := lt y x

end RVal

/-- One daily price bar as returned by the Bar Series Provider
(`client.get_aggs`); `calculate_rsi` builds its DataFrame from all of these
fields but reads only `close`. -/
structure Bar where
  timestamp : ℤ
  openPrice : ℚ
  high : ℚ
  low : ℚ
  close : ℚ
  volume : ℚ
deriving DecidableEq, Repr

/-- The exception `df['close']` raises on an empty DataFrame (the only
exception reachable in the embedded fragment of `calculate_rsi`). -/
inductive PandasError where
  | keyError : PandasError
deriving DecidableEq, Repr

/-- Embedding of `df['close'].diff()`: `none` models the NaN at index 0, `some (b - a)`
the difference of consecutive closes. -/
def diffs (c : List ℚ) : List (Option ℚ) :=
  match c with
  | [] => []
  | _ :: t => none :: List.zipWith (fun a b => some (b - a)) c t

/-- Embedding of `delta.where(delta > 0, 0)`: keep positive deltas, replace everything
else — including the leading NaN, whose comparison with 0 is false — by 0. -/
def gains (c : List ℚ) : List ℚ :=
  (diffs c).map (fun d => match d with
    | some x => if 0 < x then x else 0
    | none => 0)

/-- Embedding of `-delta.where(delta < 0, 0)`: keep negative deltas (NaN again replaced
by 0) and negate, yielding nonnegative losses. -/
def losses (c : List ℚ) : List ℚ :=
  (diffs c).map (fun d => match d with
    | some x => if x < 0 then -x else 0
    | none => 0)

/-- Last `w` elements of a list. -/
def lastN (w : ℕ) (xs : List ℚ) : List ℚ := xs.drop (xs.length - w)

/-- Embedding of `series.rolling(window=w).mean()` evaluated at the final index:
defined (the mean of the last `w` values) exactly when `1 ≤ w` and the
series has at least `w` values, NaN otherwise. -/
def rollingMeanLast (w : ℕ) (xs : List ℚ) : RVal :=
  if 1 ≤ w ∧ w ≤ xs.length then RVal.num ((lastN w xs).sum / (w : ℚ))
  else RVal.nan

/-- The final-index average gain as an exact rational (meaningful when
`1 ≤ w ≤ n`). -/
def avgGainQ (c : List ℚ) (w : ℕ) : ℚ := (lastN w (gains c)).sum / (w : ℚ)

/-- The final-index average loss as an exact rational. -/
def avgLossQ (c : List ℚ) (w : ℕ) : ℚ := (lastN w (losses c)).sum / (w : ℚ)

/-- The close column extracted from the bar sequence, in order. -/
def closesOf (data : List Bar) : List ℚ := data.map Bar.close

/-- Embedding of `100 - (100 / (1 + rs)).iloc[-1]` for the close sequence `c`:
the RSI value at the final index. -/
def rsiOfCloses (c : List ℚ) (w : ℕ) : RVal :=
  let avgGain := rollingMeanLast w (gains c)
  let avgLoss := rollingMeanLast w (losses c)
  let rs := RVal.div avgGain avgLoss
  RVal.sub (RVal.num 100) (RVal.div (RVal.num 100) (RVal.add (RVal.num 1) rs))

/-- Embedding of `calculate_rsi(data, window)` from `simplebot.py`: raises `KeyError` on
an empty bar list (`pd.DataFrame([])` has no `close` column), otherwise
returns the final-index RSI value. -/
def calculate_rsi (data : List Bar) (window : ℕ := 14) : Except PandasError RVal :=
  if data.isEmpty then Except.error PandasError.keyError
  else Except.ok (rsiOfCloses (closesOf data) window)

/-! ### The retrying fetcher -/

/-- Exceptions a fetch operation may raise: the two caught by
`get_data_with_retry` (`polygon.exceptions.AuthError` / `BadResponse`) and
an arbitrary uncaught kind, indexed by a code. -/
inductive FetchError where
  | authError : FetchError
  | badResponse : FetchError
  | other : ℕ → FetchError
deriving DecidableEq, Repr

/-- How a call of `get_data_with_retry` ends in Python: a returned value,
a propagated exception, or the implicit `None` when the `for` loop body
never runs or is exhausted without `return`/`raise`. -/
inductive RetryResult (α : Type) where
  | value : α → RetryResult α
  | raised : FetchError → RetryResult α
  | noneReturn : RetryResult α
deriving DecidableEq, Repr

/-- Observable record of one call of `get_data_with_retry`: its result, how
many times the operation was attempted, and the sleep durations (seconds)
in order. -/
structure RetryRun (α : Type) where
  result : RetryResult α
  attempts : ℕ
  sleeps : List ℕ
deriving DecidableEq, Repr

/-- The body of `for attempt in range(retries)`: iterate over the remaining
attempt indices.  A success returns immediately; `AuthError`/`BadResponse`
re-raise when `attempt == retries - 1` (i.e. no index remains) and otherwise
sleep `2 ** attempt` and continue; any other exception propagates uncaught. -/
def retryAux {α : Type} (op : ℕ → Except FetchError α) :
    List ℕ → RetryRun α
  | [] => ⟨RetryResult.noneReturn, 0, []⟩
  | i :: rest =>
    match op i with
    | Except.ok a => ⟨RetryResult.value a, 1, []⟩
    | Except.error FetchError.authError =>
        if rest.isEmpty then ⟨RetryResult.raised FetchError.authError, 1, []⟩
        else
          let r := retryAux op rest
          ⟨r.result, r.attempts + 1, 2 ^ i :: r.sleeps⟩
    | Except.error FetchError.badResponse =>
        if rest.isEmpty then ⟨RetryResult.raised FetchError.badResponse, 1, []⟩
        else
          let r := retryAux op rest
          ⟨r.result, r.attempts + 1, 2 ^ i :: r.sleeps⟩
    | Except.error e => ⟨RetryResult.raised e, 1, []⟩

/-- Embedding of `get_data_with_retry(symbol, retries)`: the fetch operation is abstracted
as `op`, a function from the zero-based attempt index to that attempt's
outcome; `retries` is an arbitrary integer (`range(retries)` is empty when
`retries ≤ 0`). -/
def get_data_with_retry {α : Type} (op : ℕ → Except FetchError α)
    (retries : ℤ := 3) : RetryRun α :=
  retryAux op (List.range retries.toNat)

/-! ### The trading-bot loop bodies -/

/-- Order side. -/
inductive Side where
  | buy : Side
  | sell : Side
deriving DecidableEq, Repr

/-- A mock order as passed to `place_order`. -/
structure Order where
  symbol : String
  side : Side
  quantity : ℕ
deriving DecidableEq, Repr

/-- The threshold decision in the loop bodies: `if rsi < 30` place a buy
order for 10 shares, `elif rsi > 70` place a sell order, else nothing. -/
def rsiOrder (symbol : String) (rsi : RVal) : Option Order :=
  if rsi.lt (RVal.num 30) then some ⟨symbol, Side.buy, 10⟩
  else if rsi.gt (RVal.num 70) then some ⟨symbol, Side.sell, 10⟩
  else none

/-- One iteration of `simple_trading_bot`'s `while True` body, given the
bar window the historical fetch returned: compute the RSI (propagating any
exception), decide the order, then sleep 300 seconds.  The returned triple
is the printed RSI value, the order passed to `place_order` (if any), and
the sleep duration. -/
def simple_bot_step (symbol : String) (data : List Bar) :
    Except PandasError (RVal × Option Order × ℕ) := do
  let rsi ← calculate_rsi data 14
  pure (rsi, rsiOrder symbol rsi, 300)

/-- One iteration of `realtime_trading_bot`'s body: `rt_data` is whatever
`get_data_with_retry` returned, but the RSI is computed from
`historical_data` — the module-level global from the initial fetch — so
`rt_data` is bound and never used. -/
def realtime_bot_step {β : Type} (symbol : String) (historical_data : List Bar)
    (rt_data : β) : Except PandasError (RVal × Option Order × ℕ) := do
  let _ := rt_data
  let rsi ← calculate_rsi historical_data 14
  pure (rsi, rsiOrder symbol rsi, 300)

/-! ### Supporting lemmas -/

theorem diffs_length (c : List ℚ) : (diffs c).length = c.length := by
  cases c with
  | nil => rfl
  | cons a t => simp [diffs]

theorem gains_length (c : List ℚ) : (gains c).length = c.length := by
  simp [gains, diffs_length]

theorem losses_length (c : List ℚ) : (losses c).length = c.length := by
  simp [losses, diffs_length]

theorem closesOf_length (data : List Bar) : (closesOf data).length = data.length := by
  simp [closesOf]

theorem gains_nonneg (c : List ℚ) : ∀ x ∈ gains c, 0 ≤ x := by
  intro x hx
  rcases List.mem_map.mp hx with ⟨d, _, rfl⟩
  cases d with
  | none => exact le_refl 0
  | some v =>
    dsimp only
    split
    · linarith
    · exact le_refl 0

theorem losses_nonneg (c : List ℚ) : ∀ x ∈ losses c, 0 ≤ x := by
  intro x hx
  rcases List.mem_map.mp hx with ⟨d, _, rfl⟩
  cases d with
  | none => exact le_refl 0
  | some v =>
    dsimp only
    split
    · linarith
    · exact le_refl 0

theorem avgGainQ_nonneg (c : List ℚ) (w : ℕ) : 0 ≤ avgGainQ c w := by
  apply div_nonneg _ (by positivity)
  exact List.sum_nonneg fun x hx => gains_nonneg c x (List.drop_subset _ _ hx)

theorem avgLossQ_nonneg (c : List ℚ) (w : ℕ) : 0 ≤ avgLossQ c w := by
  apply div_nonneg _ (by positivity)
  exact List.sum_nonneg fun x hx => losses_nonneg c x (List.drop_subset _ _ hx)

/-- On a nonempty bar list with `1 ≤ w ≤ n`, both rolling means are defined
and `calculate_rsi` reduces to the exact formula, split by the sign of the
average loss (the average gain being nonnegative throughout). -/
theorem calculate_rsi_char (data : List Bar) (w : ℕ)
    (hw : 1 ≤ w) (hn : w ≤ data.length) :
    calculate_rsi data w = Except.ok (
      if avgLossQ (closesOf data) w = 0 then
        (if 0 < avgGainQ (closesOf data) w then RVal.num 100 else RVal.nan)
      else RVal.num
        (100 - 100 / (1 + avgGainQ (closesOf data) w / avgLossQ (closesOf data) w))) := by
  have hne : ¬ data.isEmpty := by
    cases data with
    | nil => simp at hn; omega
    | cons a t => simp
  have hG : 0 ≤ avgGainQ (closesOf data) w := avgGainQ_nonneg _ _
  have hL : 0 ≤ avgLossQ (closesOf data) w := avgLossQ_nonneg _ _
  unfold calculate_rsi
  rw [if_neg hne]
  unfold rsiOfCloses
  have hgm : rollingMeanLast w (gains (closesOf data)) =
      RVal.num (avgGainQ (closesOf data) w) := by
    unfold rollingMeanLast
    rw [if_pos ⟨hw, by rw [gains_length, closesOf_length]; exact hn⟩]
    rfl
  have hlm : rollingMeanLast w (losses (closesOf data)) =
      RVal.num (avgLossQ (closesOf data) w) := by
    unfold rollingMeanLast
    rw [if_pos ⟨hw, by rw [losses_length, closesOf_length]; exact hn⟩]
    rfl
  rw [hgm, hlm]
  by_cases h0 : avgLossQ (closesOf data) w = 0
  · rw [if_pos h0]
    by_cases hg0 : 0 < avgGainQ (closesOf data) w
    · rw [if_pos hg0]
      simp only [RVal.div, h0, if_pos rfl, if_pos hg0, RVal.add, RVal.sub, RVal.neg]
      norm_num
    · rw [if_neg hg0]
      have hg0' : avgGainQ (closesOf data) w = 0 := le_antisymm (not_lt.mp hg0) hG
      simp only [RVal.div, h0, hg0', if_pos rfl, lt_irrefl, if_neg, RVal.add,
        RVal.sub, RVal.neg]
      norm_num
  · rw [if_neg h0]
    have hLpos : 0 < avgLossQ (closesOf data) w := lt_of_le_of_ne hL (Ne.symm h0)
    have hr : 0 ≤ avgGainQ (closesOf data) w / avgLossQ (closesOf data) w :=
      div_nonneg hG hL
    have h1r : (1 : ℚ) + avgGainQ (closesOf data) w / avgLossQ (closesOf data) w ≠ 0 := by
      intro h; linarith
    simp only [RVal.div, if_neg h0, RVal.add, if_neg h1r, RVal.sub, RVal.neg]
    rw [sub_eq_add_neg]

/-- C1 counterexample input: two bars with closes 1 and 3. -/
def c1Bars : List Bar := [⟨0, 0, 0, 0, 1, 0⟩, ⟨1, 0, 0, 0, 3, 0⟩]

/-- C1: counterexample.  With `window = 2` and a bar sequence of length
`n = 2 = window`, `calculate_rsi` returns the ordinary value 100 — it does
not fail with `InsufficientDataError` (no such error exists in the code):
the undefined first difference is coerced to 0 by `delta.where`, so the
final rolling mean is already defined at `n = window`. -/
theorem c1_counterexample : calculate_rsi c1Bars 2 = Except.ok (RVal.num 100) := by
  norm_num [c1Bars, calculate_rsi, rsiOfCloses, closesOf, rollingMeanLast, gains,
    losses, diffs, lastN, RVal.div, RVal.add, RVal.sub, RVal.neg]

/-- C1 (amended): for every nonempty bar sequence of length `n < window`,
`calculate_rsi` returns NaN — it neither raises an `InsufficientDataError`
(the code has no such exception) nor returns an ordinary numeric value;
at `n = window` it already returns an ordinary value, and the only
exception reachable is the `KeyError` on an empty bar list. -/
theorem c1_rsi_below_window_nan (data : List Bar) (w : ℕ)
    (h1 : data ≠ []) (h2 : data.length < w) :
    calculate_rsi data w = Except.ok RVal.nan := by
  have hne : ¬ data.isEmpty := by
    cases data with
    | nil => exact absurd rfl h1
    | cons a t => simp
  unfold calculate_rsi
  rw [if_neg hne]
  unfold rsiOfCloses
  have hgm : rollingMeanLast w (gains (closesOf data)) = RVal.nan := by
    unfold rollingMeanLast
    rw [if_neg]
    rintro ⟨-, hle⟩
    rw [gains_length, closesOf_length] at hle
    omega
  have hlm : rollingMeanLast w (losses (closesOf data)) = RVal.nan := by
    unfold rollingMeanLast
    rw [if_neg]
    rintro ⟨-, hle⟩
    rw [losses_length, closesOf_length] at hle
    omega
  rw [hgm, hlm]
  rfl

/-- C1 witness: a single bar with the default window 14 yields NaN. -/
theorem c1_rsi_below_window_nan_witness :
    calculate_rsi [⟨0, 0, 0, 0, 1, 0⟩] 14 = Except.ok RVal.nan :=
  c1_rsi_below_window_nan [⟨0, 0, 0, 0, 1, 0⟩] 14 (by simp) (by simp)

/-- C3: for a bar sequence of length `n > window` (with a positive window)
whose trailing average loss over the last `window` entries is strictly
positive, `calculate_rsi` returns exactly `100 - 100/(1 + avgGain/avgLoss)`,
and this value lies in `[0, 100]`. -/
theorem c3_rsi_value_in_range (data : List Bar) (w : ℕ)
    (hw : 1 ≤ w) (hn : w < data.length)
    (hl : 0 < avgLossQ (closesOf data) w) :
    calculate_rsi data w = Except.ok (RVal.num
      (100 - 100 / (1 + avgGainQ (closesOf data) w / avgLossQ (closesOf data) w)))
    ∧ 0 ≤ 100 - 100 / (1 + avgGainQ (closesOf data) w / avgLossQ (closesOf data) w)
    ∧ 100 - 100 / (1 + avgGainQ (closesOf data) w / avgLossQ (closesOf data) w) ≤ 100 := by
  have hchar := calculate_rsi_char data w hw (le_of_lt hn)
  rw [if_neg (ne_of_gt hl)] at hchar
  have hr : 0 ≤ avgGainQ (closesOf data) w / avgLossQ (closesOf data) w :=
    div_nonneg (avgGainQ_nonneg _ _) (le_of_lt hl)
  have h1r : (0 : ℚ) < 1 + avgGainQ (closesOf data) w / avgLossQ (closesOf data) w := by
    linarith
  have hb1 : 100 / (1 + avgGainQ (closesOf data) w / avgLossQ (closesOf data) w) ≤ 100 := by
    rw [div_le_iff₀ h1r]; nlinarith
  have hb0 : 0 < 100 / (1 + avgGainQ (closesOf data) w / avgLossQ (closesOf data) w) := by
    positivity
  exact ⟨hchar, by linarith, by linarith⟩

/-- C3 witness input: closes 2 then 1, window 1. -/
def c3Bars : List Bar := [⟨0, 0, 0, 0, 2, 0⟩, ⟨1, 0, 0, 0, 1, 0⟩]

/-- C3 witness: on `c3Bars` with window 1 the average loss is 1 > 0 and the
theorem applies, giving RSI = 0 within the bounds. -/
theorem c3_rsi_value_in_range_witness :
    0 < avgLossQ (closesOf c3Bars) 1 ∧
    (calculate_rsi c3Bars 1 = Except.ok (RVal.num
      (100 - 100 / (1 + avgGainQ (closesOf c3Bars) 1 / avgLossQ (closesOf c3Bars) 1)))
    ∧ 0 ≤ 100 - 100 / (1 + avgGainQ (closesOf c3Bars) 1 / avgLossQ (closesOf c3Bars) 1)
    ∧ 100 - 100 / (1 + avgGainQ (closesOf c3Bars) 1 / avgLossQ (closesOf c3Bars) 1) ≤ 100) :=
  have hl : 0 < avgLossQ (closesOf c3Bars) 1 := by
    norm_num [avgLossQ, losses, diffs, closesOf, lastN, c3Bars]
  ⟨hl, c3_rsi_value_in_range c3Bars 1 (by norm_num) (by norm_num [c3Bars]) hl⟩

/-- Every strict-ascent difference in `diffs` is positive. -/
theorem diffs_pos_of_chain (c : List ℚ) (hch : List.Chain' (· < ·) c) :
    ∀ v : ℚ, some v ∈ diffs c → 0 < v := by
  induction c with
  | nil => intro v hv; simp [diffs] at hv
  | cons a t ih =>
    cases t with
    | nil => intro v hv; simp [diffs] at hv
    | cons b t2 =>
      rw [List.chain'_cons] at hch
      intro v hv
      simp only [diffs, List.zipWith_cons_cons, List.mem_cons] at hv
      rcases hv with h1 | h2 | h3
      · exact absurd h1 (by simp)
      · have : v = b - a := Option.some.inj h2
        subst this
        linarith [hch.1]
      · exact ih hch.2 v (by simp only [diffs, List.mem_cons]; exact Or.inr h3)

/-- Every strict-descent difference in `diffs` is negative. -/
theorem diffs_neg_of_chain (c : List ℚ) (hch : List.Chain' (· > ·) c) :
    ∀ v : ℚ, some v ∈ diffs c → v < 0 := by
  induction c with
  | nil => intro v hv; simp [diffs] at hv
  | cons a t ih =>
    cases t with
    | nil => intro v hv; simp [diffs] at hv
    | cons b t2 =>
      rw [List.chain'_cons] at hch
      intro v hv
      simp only [diffs, List.zipWith_cons_cons, List.mem_cons] at hv
      rcases hv with h1 | h2 | h3
      · exact absurd h1 (by simp)
      · have : v = b - a := Option.some.inj h2
        subst this
        have : a > b := hch.1
        linarith
      · exact ih hch.2 v (by simp only [diffs, List.mem_cons]; exact Or.inr h3)

/-- On a strictly increasing close sequence every loss entry is 0. -/
theorem losses_zero_of_chain_lt (c : List ℚ) (hch : List.Chain' (· < ·) c) :
    ∀ x ∈ losses c, x = 0 := by
  intro x hx
  rcases List.mem_map.mp hx with ⟨d, hd, rfl⟩
  cases d with
  | none => rfl
  | some v =>
    have hv := diffs_pos_of_chain c hch v hd
    dsimp only
    rw [if_neg (by linarith)]

/-- On a strictly decreasing close sequence every gain entry is 0. -/
theorem gains_zero_of_chain_gt (c : List ℚ) (hch : List.Chain' (· > ·) c) :
    ∀ x ∈ gains c, x = 0 := by
  intro x hx
  rcases List.mem_map.mp hx with ⟨d, hd, rfl⟩
  cases d with
  | none => rfl
  | some v =>
    have hv := diffs_neg_of_chain c hch v hd
    dsimp only
    rw [if_neg (by linarith)]

/-- On a strictly increasing close sequence, every entry of `gains` past the
leading coerced 0 is positive. -/
theorem gains_tail_pos (c : List ℚ) (hch : List.Chain' (· < ·) c) :
    ∀ x ∈ (gains c).tail, 0 < x := by
  induction c with
  | nil => simp [gains, diffs]
  | cons a t ih =>
    cases t with
    | nil => simp [gains, diffs]
    | cons b t2 =>
      rw [List.chain'_cons] at hch
      intro x hx
      have he : (gains (a :: b :: t2)).tail =
          (if 0 < b - a then b - a else 0) :: (gains (b :: t2)).tail := by
        simp [gains, diffs, List.zipWith_cons_cons]
      rw [he, List.mem_cons] at hx
      rcases hx with h1 | h2
      · subst h1
        rw [if_pos (by linarith [hch.1])]
        linarith [hch.1]
      · exact ih hch.2 x h2

/-- On a strictly decreasing close sequence, every entry of `losses` past
the leading coerced 0 is positive. -/
theorem losses_tail_pos (c : List ℚ) (hch : List.Chain' (· > ·) c) :
    ∀ x ∈ (losses c).tail, 0 < x := by
  induction c with
  | nil => simp [losses, diffs]
  | cons a t ih =>
    cases t with
    | nil => simp [losses, diffs]
    | cons b t2 =>
      rw [List.chain'_cons] at hch
      intro x hx
      have he : (losses (a :: b :: t2)).tail =
          (if b - a < 0 then -(b - a) else 0) :: (losses (b :: t2)).tail := by
        simp [losses, diffs, List.zipWith_cons_cons]
      rw [he, List.mem_cons] at hx
      rcases hx with h1 | h2
      · subst h1
        have hba : b - a < 0 := by have : a > b := hch.1; linarith
        rw [if_pos hba]
        linarith
      · exact ih hch.2 x h2

/-- The last `w` entries of a list of length `> w` avoid its head. -/
theorem lastN_subset_tail (w : ℕ) (xs : List ℚ) (hw : w < xs.length) :
    ∀ x ∈ lastN w xs, x ∈ xs.tail := by
  intro x hx
  unfold lastN at hx
  obtain ⟨m, hm⟩ : ∃ m, xs.length - w = m + 1 := ⟨xs.length - w - 1, by omega⟩
  rw [hm] at hx
  have hdd : xs.drop (m + 1) = (xs.drop 1).drop m := by
    rw [List.drop_drop, Nat.add_comm]
  rw [hdd, List.drop_one] at hx
  exact List.drop_subset _ _ hx

theorem avgLossQ_zero_of_chain_lt (c : List ℚ) (hch : List.Chain' (· < ·) c)
    (w : ℕ) : avgLossQ c w = 0 := by
  unfold avgLossQ
  rw [List.sum_eq_zero, zero_div]
  intro x hx
  exact losses_zero_of_chain_lt c hch x (List.drop_subset _ _ hx)

theorem avgGainQ_zero_of_chain_gt (c : List ℚ) (hch : List.Chain' (· > ·) c)
    (w : ℕ) : avgGainQ c w = 0 := by
  unfold avgGainQ
  rw [List.sum_eq_zero, zero_div]
  intro x hx
  exact gains_zero_of_chain_gt c hch x (List.drop_subset _ _ hx)

theorem lastN_length_of_le (w : ℕ) (xs : List ℚ) (h : w ≤ xs.length) :
    (lastN w xs).length = w := by
  unfold lastN
  rw [List.length_drop]
  omega

theorem avgGainQ_pos_of_chain_lt (c : List ℚ) (hch : List.Chain' (· < ·) c)
    (w : ℕ) (hw : 1 ≤ w) (hn : w < c.length) : 0 < avgGainQ c w := by
  unfold avgGainQ
  apply div_pos
  · apply List.sum_pos
    · intro x hx
      apply gains_tail_pos c hch x
      exact lastN_subset_tail w (gains c) (by rw [gains_length]; exact hn) x hx
    · have hlen : (lastN w (gains c)).length = w :=
        lastN_length_of_le w (gains c) (by rw [gains_length]; omega)
      intro hnil
      rw [hnil] at hlen
      simp at hlen
      omega
  · exact_mod_cast hw

theorem avgLossQ_pos_of_chain_gt (c : List ℚ) (hch : List.Chain' (· > ·) c)
    (w : ℕ) (hw : 1 ≤ w) (hn : w < c.length) : 0 < avgLossQ c w := by
  unfold avgLossQ
  apply div_pos
  · apply List.sum_pos
    · intro x hx
      apply losses_tail_pos c hch x
      exact lastN_subset_tail w (losses c) (by rw [losses_length]; exact hn) x hx
    · have hlen : (lastN w (losses c)).length = w :=
        lastN_length_of_le w (losses c) (by rw [losses_length]; omega)
      intro hnil
      rw [hnil] at hlen
      simp at hlen
      omega
  · exact_mod_cast hw

/-- C6: for a bar sequence of length `n > window` (with a positive window),
strictly increasing closes give RSI exactly 100 (the `avgLoss = 0`,
`avgGain > 0` branch evaluates `rs = +∞`, `100/(1+∞) = 0`), and strictly
decreasing closes give RSI exactly 0 (`rs = 0`). -/
theorem c6_rsi_monotone_extremes (data : List Bar) (w : ℕ)
    (hw : 1 ≤ w) (hn : w < data.length) :
    (List.Chain' (· < ·) (closesOf data) →
      calculate_rsi data w = Except.ok (RVal.num 100)) ∧
    (List.Chain' (· > ·) (closesOf data) →
      calculate_rsi data w = Except.ok (RVal.num 0)) := by
  have hlen : w < (closesOf data).length := by rw [closesOf_length]; exact hn
  constructor
  · intro hch
    have hchar := calculate_rsi_char data w hw hn.le
    rw [avgLossQ_zero_of_chain_lt _ hch, if_pos rfl,
        if_pos (avgGainQ_pos_of_chain_lt _ hch w hw hlen)] at hchar
    exact hchar
  · intro hch
    have hchar := calculate_rsi_char data w hw hn.le
    have hLpos := avgLossQ_pos_of_chain_gt _ hch w hw hlen
    rw [if_neg (ne_of_gt hLpos), avgGainQ_zero_of_chain_gt _ hch] at hchar
    norm_num at hchar
    exact hchar

/-- C6 witness input: three bars with strictly increasing closes 1, 2, 3. -/
def c6Bars : List Bar := [⟨0, 0, 0, 0, 1, 0⟩, ⟨1, 0, 0, 0, 2, 0⟩, ⟨2, 0, 0, 0, 3, 0⟩]

/-- C6 witness: the increasing branch at window 2 yields RSI = 100. -/
theorem c6_rsi_monotone_extremes_witness :
    calculate_rsi c6Bars 2 = Except.ok (RVal.num 100) :=
  (c6_rsi_monotone_extremes c6Bars 2 (by norm_num) (by norm_num [c6Bars])).1
    (by norm_num [closesOf, c6Bars, List.chain'_cons, List.chain'_singleton])

/-- C8: `calculate_rsi` depends only on the close column: two bar sequences
whose close columns agree (equal length, pairwise equal closes — all other
fields arbitrary) yield identical results for every window. -/
theorem c8_rsi_close_only (d1 d2 : List Bar) (w : ℕ)
    (h : d1.map Bar.close = d2.map Bar.close) :
    calculate_rsi d1 w = calculate_rsi d2 w := by
  have hcl : closesOf d1 = closesOf d2 := h
  have hemp : d1.isEmpty = d2.isEmpty := by
    cases d1 <;> cases d2 <;> simp_all
  unfold calculate_rsi
  rw [hcl, hemp]

/-- C8 witness: two single-bar lists with equal closes but different
timestamps, opens, highs, lows and volumes give the same RSI. -/
theorem c8_rsi_close_only_witness :
    calculate_rsi [⟨0, 1, 2, 0, 5, 9⟩] 14 = calculate_rsi [⟨7, 3, 4, 1, 5, 2⟩] 14 :=
  c8_rsi_close_only [⟨0, 1, 2, 0, 5, 9⟩] [⟨7, 3, 4, 1, 5, 2⟩] 14 (by norm_num)

/-- The threshold comparison `rsi > 70` excludes `rsi < 30` for every
modelled scalar. -/
theorem rval_gt70_not_lt30 (x : RVal) :
    x.gt (RVal.num 70) = true → x.lt (RVal.num 30) = false := by
  cases x with
  | nan => intro h; rfl
  | inf => intro h; rfl
  | ninf => intro h; exact absurd h (by simp [RVal.gt, RVal.lt])
  | num a =>
    simp only [RVal.gt, RVal.lt, decide_eq_true_eq, decide_eq_false_iff_not, not_lt]
    intro h
    linarith

/-- C4: in one iteration of `simple_trading_bot`, whenever the RSI
computation succeeds with value `rsi`, the step prints `rsi`, places a mock
buy order iff `rsi < 30`, a sell order iff `rsi > 70`, no order otherwise,
and then sleeps the fixed 300-second interval. -/
theorem c4_simple_bot_decision (sym : String) (data : List Bar) (rsi : RVal)
    (h : calculate_rsi data 14 = Except.ok rsi) :
    simple_bot_step sym data = Except.ok (rsi, rsiOrder sym rsi, 300) ∧
    (rsiOrder sym rsi = some ⟨sym, Side.buy, 10⟩ ↔ rsi.lt (RVal.num 30) = true) ∧
    (rsiOrder sym rsi = some ⟨sym, Side.sell, 10⟩ ↔ rsi.gt (RVal.num 70) = true) ∧
    (rsiOrder sym rsi = none ↔
      (rsi.lt (RVal.num 30) = false ∧ rsi.gt (RVal.num 70) = false)) := by
  refine ⟨by simp [simple_bot_step, h], ?_, ?_, ?_⟩ <;> unfold rsiOrder
  · by_cases hlt : rsi.lt (RVal.num 30) = true
    · simp [hlt]
    · have hlt' : rsi.lt (RVal.num 30) = false := by
        cases hfl : rsi.lt (RVal.num 30) <;> simp_all
      by_cases hgt : rsi.gt (RVal.num 70) = true <;> simp [hlt', hgt]
  · by_cases hlt : rsi.lt (RVal.num 30) = true
    · have := rval_gt70_not_lt30 rsi
      simp only [hlt, if_pos]
      constructor
      · intro hcontra
        exact absurd (Option.some.inj hcontra) (by simp)
      · intro hgt
        rw [this hgt] at hlt
        exact absurd hlt (by simp)
    · have hlt' : rsi.lt (RVal.num 30) = false := by
        cases hfl : rsi.lt (RVal.num 30) <;> simp_all
      by_cases hgt : rsi.gt (RVal.num 70) = true <;> simp [hlt', hgt]
  · by_cases hlt : rsi.lt (RVal.num 30) = true
    · simp [hlt]
    · have hlt' : rsi.lt (RVal.num 30) = false := by
        cases hfl : rsi.lt (RVal.num 30) <;> simp_all
      by_cases hgt : rsi.gt (RVal.num 70) = true <;> simp [hlt', hgt]

/-- C4 witness: a single bar gives RSI NaN, both comparisons false, and the
step takes the no-order branch before the 300-second sleep. -/
theorem c4_simple_bot_decision_witness :
    simple_bot_step "AAPL" [⟨0, 0, 0, 0, 1, 0⟩] =
      Except.ok (RVal.nan, rsiOrder "AAPL" RVal.nan, 300) ∧
    (rsiOrder "AAPL" RVal.nan = some ⟨"AAPL", Side.buy, 10⟩ ↔
      RVal.nan.lt (RVal.num 30) = true) ∧
    (rsiOrder "AAPL" RVal.nan = some ⟨"AAPL", Side.sell, 10⟩ ↔
      RVal.nan.gt (RVal.num 70) = true) ∧
    (rsiOrder "AAPL" RVal.nan = none ↔
      (RVal.nan.lt (RVal.num 30) = false ∧ RVal.nan.gt (RVal.num 70) = false)) :=
  c4_simple_bot_decision "AAPL" [⟨0, 0, 0, 0, 1, 0⟩] RVal.nan
    (by norm_num [calculate_rsi, rsiOfCloses, closesOf, rollingMeanLast, gains,
      losses, diffs, lastN, RVal.div, RVal.add, RVal.sub, RVal.neg])

/-- C9: when `calculate_rsi` returns NaN (e.g. on a bar sequence shorter
than the window), both threshold comparisons are false, so the iteration of
`simple_trading_bot` places no order and proceeds to the sleep. -/
theorem c9_nan_places_no_order (sym : String) (data : List Bar)
    (h : calculate_rsi data 14 = Except.ok RVal.nan) :
    simple_bot_step sym data = Except.ok (RVal.nan, none, 300) := by
  simp [simple_bot_step, h, rsiOrder, RVal.lt, RVal.gt]

/-- C9 witness: two bars (fewer than the 14-delta window) give NaN and no
order. -/
theorem c9_nan_places_no_order_witness :
    simple_bot_step "AAPL" [⟨0, 0, 0, 0, 2, 0⟩, ⟨1, 0, 0, 0, 4, 0⟩] =
      Except.ok (RVal.nan, none, 300) :=
  c9_nan_places_no_order "AAPL" [⟨0, 0, 0, 0, 2, 0⟩, ⟨1, 0, 0, 0, 4, 0⟩]
    (by norm_num [calculate_rsi, rsiOfCloses, closesOf, rollingMeanLast, gains,
      losses, diffs, lastN, RVal.div, RVal.add, RVal.sub, RVal.neg])

/-- C7: one iteration of `realtime_trading_bot` computes its RSI and order
from the previously fetched `historical_data` global; for any two values
the real-time fetch could return the printed RSI and the placed order are
identical (the fetched value is bound to `rt_data` and never read). -/
theorem c7_realtime_independent_of_fetch {β : Type} (sym : String)
    (hist : List Bar) (rt1 rt2 : β) :
    realtime_bot_step sym hist rt1 = realtime_bot_step sym hist rt2 := rfl

/-- When every attempt raises `BadResponse`, iterating the loop body over a
nonempty index list attempts once per index, sleeps `2^i` after every index
but the last, and re-raises the failure. -/
theorem retryAux_all_badResponse {α : Type} (op : ℕ → Except FetchError α)
    (hop : ∀ i, op i = Except.error FetchError.badResponse) :
    ∀ l : List ℕ, l ≠ [] →
      retryAux op l = ⟨RetryResult.raised FetchError.badResponse, l.length,
        l.dropLast.map (fun i => 2 ^ i)⟩ := by
  intro l
  induction l with
  | nil => intro h; exact absurd rfl h
  | cons i rest ih =>
    intro _
    cases rest with
    | nil => simp [retryAux, hop i]
    | cons j rest2 =>
      have hr := ih (by simp)
      have hstep : retryAux op (i :: j :: rest2) =
          ⟨(retryAux op (j :: rest2)).result, (retryAux op (j :: rest2)).attempts + 1,
            2 ^ i :: (retryAux op (j :: rest2)).sleeps⟩ := by
        conv_lhs => rw [retryAux.eq_def]
        dsimp only
        rw [hop i]
        rfl
      rw [hstep, hr]
      simp [List.dropLast]

/-- C2: for every `k ≥ 1`, calling `get_data_with_retry` with `retries = k`
on an operation that always raises `BadResponse` attempts it exactly `k`
times, sleeps `k-1` times with durations `2^0, 2^1, …, 2^(k-2)` seconds in
that order (base delay 1 second, doubling each attempt), and then
propagates the same `BadResponse` failure. -/
theorem c2_retry_exhausts_attempts {α : Type} (op : ℕ → Except FetchError α)
    (k : ℕ) (hk : 1 ≤ k)
    (hop : ∀ i, op i = Except.error FetchError.badResponse) :
    get_data_with_retry op (k : ℤ) =
      ⟨RetryResult.raised FetchError.badResponse, k,
        (List.range (k - 1)).map (fun i => 2 ^ i)⟩ := by
  unfold get_data_with_retry
  rw [Int.toNat_natCast]
  obtain ⟨k', rfl⟩ : ∃ k', k = k' + 1 := ⟨k - 1, by omega⟩
  rw [retryAux_all_badResponse op hop (List.range (k' + 1)) (by simp)]
  rw [List.range_succ, List.dropLast_concat]
  simp

/-- C2 witness: three attempts, sleeps of 1 and 2 seconds, final
`BadResponse` propagated. -/
theorem c2_retry_exhausts_attempts_witness :
    get_data_with_retry (α := Unit) (fun _ => Except.error FetchError.badResponse)
      ((3 : ℕ) : ℤ) = ⟨RetryResult.raised FetchError.badResponse, 3, [1, 2]⟩ :=
  (c2_retry_exhausts_attempts (fun _ => Except.error FetchError.badResponse) 3
    (by norm_num) (fun _ => rfl)).trans (by rfl)

/-- C5: an operation whose first attempt raises an error that is neither
`AuthError` nor `BadResponse` is attempted exactly once: the exception is
not caught, so no sleep happens and the error propagates immediately,
whatever the retry budget `k ≥ 1` is. -/
theorem c5_nonretryable_single_attempt {α : Type} (op : ℕ → Except FetchError α)
    (k : ℕ) (hk : 1 ≤ k) (code : ℕ)
    (hop : op 0 = Except.error (FetchError.other code)) :
    get_data_with_retry op (k : ℤ) =
      ⟨RetryResult.raised (FetchError.other code), 1, []⟩ := by
  unfold get_data_with_retry
  rw [Int.toNat_natCast]
  obtain ⟨k', rfl⟩ : ∃ k', k = k' + 1 := ⟨k - 1, by omega⟩
  rw [List.range_succ_eq_map]
  simp [retryAux, hop]

/-- C5 witness: a non-retryable error with code 7 under the default budget
of 3 attempts. -/
theorem c5_nonretryable_single_attempt_witness :
    get_data_with_retry (α := Unit) (fun _ => Except.error (FetchError.other 7))
      ((3 : ℕ) : ℤ) = ⟨RetryResult.raised (FetchError.other 7), 1, []⟩ :=
  c5_nonretryable_single_attempt (fun _ => Except.error (FetchError.other 7)) 3
    (by norm_num) 7 rfl

/-- C10: with `retries ≤ 0`, `range(retries)` is empty, so the loop body
never runs: the operation is attempted zero times, nothing sleeps, no error
is raised, and the function falls through to the implicit `None`. -/
theorem c10_nonpositive_retries_none {α : Type} (op : ℕ → Except FetchError α)
    (r : ℤ) (hr : r ≤ 0) :
    get_data_with_retry op r = ⟨RetryResult.noneReturn, 0, []⟩ := by
  unfold get_data_with_retry
  rw [Int.toNat_of_nonpos hr]
  rfl

/-- C10 witness: `retries = -2` attempts nothing and returns `None`. -/
theorem c10_nonpositive_retries_none_witness :
    get_data_with_retry (α := Unit) (fun _ => Except.error FetchError.badResponse)
      (-2) = ⟨RetryResult.noneReturn, 0, []⟩ :=
  c10_nonpositive_retries_none (fun _ => Except.error FetchError.badResponse)
    (-2) (by norm_num)
